import Mathlib

/-!
Verification of the bounding-box recentering script (`fix_tree_origin.py`).

The script's algorithmic core works on mesh objects, each carrying a local
bounding box (a list of corner points) and a world transform (an affine map:
a linear 3×3 part and a translation, the object's `location`).  Coordinates
are embedded as exact rationals (`ℚ`); the running minima/maxima of the
union-bounds loop start at `+∞`/`−∞` (the script's `float('inf')` /
`float('-inf')`), embedded as `⊤ : WithTop ℚ` and `⊥ : WithBot ℚ`.
-/

/-- A 3-component point/vector (`mathutils.Vector`). -/
structure Vec3 where
  x : ℚ
  y : ℚ
  z : ℚ
deriving DecidableEq, Repr

instance : Add Vec3 := ⟨fun a b => ⟨a.x + b.x, a.y + b.y, a.z + b.z⟩⟩

theorem Vec3.add_def (a b : Vec3) : a + b = ⟨a.x + b.x, a.y + b.y, a.z + b.z⟩ := rfl

/-- The linear (rotation·scale) 3×3 block of an object's world matrix. -/
structure Mat3 where
  m00 : ℚ
  m01 : ℚ
  m02 : ℚ
  m10 : ℚ
  m11 : ℚ
  m12 : ℚ
  m20 : ℚ
  m21 : ℚ
  m22 : ℚ
deriving DecidableEq, Repr

def Mat3.apply (m : Mat3) (v : Vec3) : Vec3 :=
  ⟨m.m00 * v.x + m.m01 * v.y + m.m02 * v.z,
   m.m10 * v.x + m.m11 * v.y + m.m12 * v.z,
   m.m20 * v.x + m.m21 * v.y + m.m22 * v.z⟩

/-- The identity linear part. -/
def Mat3.id : Mat3 := ⟨1, 0, 0, 0, 1, 0, 0, 0, 1⟩

/-- A mesh object: name, local bounding-box corners (`obj.bound_box`,
8 points in Blender), and the world transform split into its linear block
and its translation component (`obj.location`). -/
structure MeshObject where
  name : String
  boundBox : List Vec3
  linear : Mat3
  location : Vec3
deriving DecidableEq, Repr

/-- `obj.matrix_world @ mathutils.Vector(corner)` (line 27): the affine world
transform applied to a local corner. -/
def worldPoint (o : MeshObject) (c : Vec3) : Vec3 :=
  o.linear.apply c + o.location

/-- The world-space corners of one object, in iteration order (line 26). -/
def objCorners (o : MeshObject) : List Vec3 :=
  o.boundBox.map (worldPoint o)

/-- All world-space corners of a sequence of objects, in the order the nested
loops of lines 24–33 visit them. -/
def allCorners (objs : List MeshObject) : List Vec3 :=
  objs.flatMap objCorners

/-- The six running accumulators `min_x … max_z` of lines 21–22.  Minima live
in `WithTop ℚ` (start `+∞`), maxima in `WithBot ℚ` (start `−∞`). -/
structure UnionBounds where
  min_x : WithTop ℚ
  min_y : WithTop ℚ
  min_z : WithTop ℚ
  max_x : WithBot ℚ
  max_y : WithBot ℚ
  max_z : WithBot ℚ
deriving DecidableEq

/-- Initial accumulator values (lines 21–22): `float('inf')` / `float('-inf')`. -/
def initBounds : UnionBounds := ⟨⊤, ⊤, ⊤, ⊥, ⊥, ⊥⟩

/-- One iteration of the inner loop body (lines 28–33): fold one world corner
into the six accumulators. -/
def updateCorner (s : UnionBounds) (w : Vec3) : UnionBounds :=
  ⟨min s.min_x ↑w.x, min s.min_y ↑w.y, min s.min_z ↑w.z,
   max s.max_x ↑w.x, max s.max_y ↑w.y, max s.max_z ↑w.z⟩

/-- The union bounding-box loop of lines 21–33: starting from `±∞`, fold every
world-transformed corner of every object into the running minima/maxima. -/
def computeUnionBounds (objs : List MeshObject) : UnionBounds :=
  objs.foldl (fun s o => (objCorners o).foldl updateCorner s) initBounds

/-- An axis-aligned bounding box with finite corners. -/
structure BoundingBox where
  min : Vec3
  max : Vec3
deriving DecidableEq, Repr

/-- The offset computation of lines 40–47:
`center_x = (min_x + max_x)/2`, `center_y = (min_y + max_y)/2`,
`bottom_z = min_z`, `offset = (-center_x, -center_y, -bottom_z)`. -/
def computeRecenterOffset (b : BoundingBox) : Vec3 :=
  let center_x := (b.min.x + b.max.x) / 2
  let center_y := (b.min.y + b.max.y) / 2
  let bottom_z := b.min.z
  ⟨-center_x, -center_y, -bottom_z⟩

/-- The apply-offset loop of lines 50–52: `obj.location += offset` for each
object, touching nothing else. -/
def applyOffset (objs : List MeshObject) (off : Vec3) : List MeshObject :=
  objs.map (fun o => { o with location := o.location + off })

/-- The running-minimum accumulation pattern of the loops (lines 28–30 and
line 70): fold rationals into a `WithTop ℚ` accumulator with `min`. -/
def fminL (s : WithTop ℚ) (l : List ℚ) : WithTop ℚ :=
  l.foldl (fun m q => min m ((q : ℚ) : WithTop ℚ)) s

/-- The running-maximum accumulation pattern of lines 31–33. -/
def fmaxL (s : WithBot ℚ) (l : List ℚ) : WithBot ℚ :=
  l.foldl (fun m q => max m ((q : ℚ) : WithBot ℚ)) s

/-- Result of the verification loop. -/
structure VerifyResult where
  minZ : WithTop ℚ
  centroidX : ℚ
  centroidY : ℚ
deriving DecidableEq

/-- The verification loop of lines 63–76, component by component: the single
pass accumulates `min_z_new` (from `+∞`), the sums of the corners' X and Y,
and the corner count, then divides the sums by the count. -/
def verifyRecenter (objs : List MeshObject) : VerifyResult :=
  let cs := allCorners objs
  { minZ := fminL ⊤ (cs.map Vec3.z)
    centroidX := (cs.map Vec3.x).sum / (cs.length : ℚ)
    centroidY := (cs.map Vec3.y).sum / (cs.length : ℚ) }

/-- The texture-copy loop of lines 120–125: for each listed file, if it exists
at the source it is copied and a `Copied: <name>` line is printed; otherwise
nothing happens.  Returns (copied files, printed lines). -/
def copyTextures (present : String → Bool) : List String → List String × List String
  | [] => ([], [])
  | f :: fs =>
      let rest := copyTextures present fs
      if present f then (f :: rest.1, ("Copied: " ++ f) :: rest.2) else rest

/-! ### Structural lemmas about the union-bounds fold -/

theorem foldl_inner_eq (objs : List MeshObject) (s : UnionBounds) :
    objs.foldl (fun s o => (objCorners o).foldl updateCorner s) s
      = (allCorners objs).foldl updateCorner s := by
  induction objs generalizing s with
  | nil => rfl
  | cons o rest ih =>
      simp only [List.foldl_cons, allCorners, List.flatMap_cons, List.foldl_append]
      exact ih _

theorem computeUnionBounds_eq_foldl (objs : List MeshObject) :
    computeUnionBounds objs = (allCorners objs).foldl updateCorner initBounds :=
  foldl_inner_eq objs initBounds

/-- The six interleaved accumulators of the union-bounds loop decompose into
six independent scalar folds over the corner coordinates. -/
theorem foldl_updateCorner_components (l : List Vec3) (s : UnionBounds) :
    l.foldl updateCorner s
      = ⟨fminL s.min_x (l.map Vec3.x), fminL s.min_y (l.map Vec3.y),
         fminL s.min_z (l.map Vec3.z), fmaxL s.max_x (l.map Vec3.x),
         fmaxL s.max_y (l.map Vec3.y), fmaxL s.max_z (l.map Vec3.z)⟩ := by
  induction l generalizing s with
  | nil => rfl
  | cons c rest ih =>
      simp only [List.foldl_cons, List.map_cons, fminL, fmaxL] at ih ⊢
      exact ih (updateCorner s c)

/-! ### Scalar fold lemmas -/

theorem fminL_cons (s : WithTop ℚ) (q : ℚ) (l : List ℚ) :
    fminL s (q :: l) = fminL (min s ↑q) l := rfl

theorem fmaxL_cons (s : WithBot ℚ) (q : ℚ) (l : List ℚ) :
    fmaxL s (q :: l) = fmaxL (max s ↑q) l := rfl

theorem fminL_le_init (s : WithTop ℚ) (l : List ℚ) : fminL s l ≤ s := by
  induction l generalizing s with
  | nil => exact le_refl s
  | cons q rest ih => exact le_trans (ih (min s ↑q)) (min_le_left s ↑q)

theorem fmaxL_ge_init (s : WithBot ℚ) (l : List ℚ) : s ≤ fmaxL s l := by
  induction l generalizing s with
  | nil => exact le_refl s
  | cons q rest ih => exact le_trans (le_max_left s ↑q) (ih (max s ↑q))

theorem fminL_le_mem (s : WithTop ℚ) (l : List ℚ) (q : ℚ) (hq : q ∈ l) :
    fminL s l ≤ ↑q := by
  induction l generalizing s with
  | nil => cases hq
  | cons p rest ih =>
      rcases List.mem_cons.mp hq with h | h
      · subst h
        exact le_trans (fminL_le_init (min s ↑q) rest) (min_le_right s ↑q)
      · exact ih (min s ↑p) h

theorem fmaxL_ge_mem (s : WithBot ℚ) (l : List ℚ) (q : ℚ) (hq : q ∈ l) :
    ↑q ≤ fmaxL s l := by
  induction l generalizing s with
  | nil => cases hq
  | cons p rest ih =>
      rcases List.mem_cons.mp hq with h | h
      · subst h
        exact le_trans (le_max_right s ↑q) (fmaxL_ge_init (max s ↑q) rest)
      · exact ih (max s ↑p) h

theorem fminL_eq_init_or_mem (s : WithTop ℚ) (l : List ℚ) :
    fminL s l = s ∨ ∃ q ∈ l, fminL s l = ↑q := by
  induction l generalizing s with
  | nil => exact Or.inl rfl
  | cons p rest ih =>
      rcases ih (min s ↑p) with h | ⟨q, hq, h⟩
      · rw [fminL_cons, h]
        rcases min_choice s (↑p : WithTop ℚ) with hc | hc
        · exact Or.inl hc
        · exact Or.inr ⟨p, List.mem_cons_self p rest, hc⟩
      · exact Or.inr ⟨q, List.mem_cons_of_mem p hq, by rw [fminL_cons, h]⟩

theorem fmaxL_eq_init_or_mem (s : WithBot ℚ) (l : List ℚ) :
    fmaxL s l = s ∨ ∃ q ∈ l, fmaxL s l = ↑q := by
  induction l generalizing s with
  | nil => exact Or.inl rfl
  | cons p rest ih =>
      rcases ih (max s ↑p) with h | ⟨q, hq, h⟩
      · rw [fmaxL_cons, h]
        rcases max_choice s (↑p : WithBot ℚ) with hc | hc
        · exact Or.inl hc
        · exact Or.inr ⟨p, List.mem_cons_self p rest, hc⟩
      · exact Or.inr ⟨q, List.mem_cons_of_mem p hq, by rw [fmaxL_cons, h]⟩

theorem fminL_top_attained (l : List ℚ) (h : l ≠ []) :
    ∃ q ∈ l, fminL ⊤ l = ↑q := by
  rcases fminL_eq_init_or_mem ⊤ l with heq | hmem
  · rcases l with _ | ⟨p, rest⟩
    · exact absurd rfl h
    · exfalso
      have hle : fminL ⊤ (p :: rest) ≤ ↑p := fminL_le_mem _ _ p (List.mem_cons_self p rest)
      rw [heq] at hle
      exact absurd (top_le_iff.mp hle) (WithTop.coe_ne_top)
  · exact hmem

theorem fmaxL_bot_attained (l : List ℚ) (h : l ≠ []) :
    ∃ q ∈ l, fmaxL ⊥ l = ↑q := by
  rcases fmaxL_eq_init_or_mem ⊥ l with heq | hmem
  · rcases l with _ | ⟨p, rest⟩
    · exact absurd rfl h
    · exfalso
      have hle : ↑p ≤ fmaxL ⊥ (p :: rest) := fmaxL_ge_mem _ _ p (List.mem_cons_self p rest)
      rw [heq] at hle
      exact absurd (le_bot_iff.mp hle) (WithBot.coe_ne_bot)
  · exact hmem

instance instRCMinCoe : RightCommutative (fun (m : WithTop ℚ) (q : ℚ) => min m ↑q) :=
  ⟨fun b a₁ a₂ => min_right_comm b ↑a₁ ↑a₂⟩

instance instRCMaxCoe : RightCommutative (fun (m : WithBot ℚ) (q : ℚ) => max m ↑q) :=
  ⟨fun b a₁ a₂ => by
    show max (max b ↑a₁) ↑a₂ = max (max b ↑a₂) ↑a₁
    rw [max_assoc, max_comm (↑a₁ : WithBot ℚ) ↑a₂, ← max_assoc]⟩

theorem fminL_perm (s : WithTop ℚ) (l l' : List ℚ) (h : l.Perm l') :
    fminL s l = fminL s l' := by
  unfold fminL
  exact @List.Perm.foldl_eq _ _ _ _ _ instRCMinCoe h s

theorem fmaxL_perm (s : WithBot ℚ) (l l' : List ℚ) (h : l.Perm l') :
    fmaxL s l = fmaxL s l' := by
  unfold fmaxL
  exact @List.Perm.foldl_eq _ _ _ _ _ instRCMaxCoe h s

theorem fminL_shift (t : ℚ) (l : List ℚ) (s : WithTop ℚ) :
    fminL (s + ↑t) (l.map (· + t)) = fminL s l + ↑t := by
  induction l generalizing s with
  | nil => rfl
  | cons q rest ih =>
      simp only [List.map_cons, fminL_cons]
      rw [← ih (min s ↑q), WithTop.coe_add, ← min_add_add_right]

theorem fmaxL_shift (t : ℚ) (l : List ℚ) (s : WithBot ℚ) :
    fmaxL (s + ↑t) (l.map (· + t)) = fmaxL s l + ↑t := by
  induction l generalizing s with
  | nil => rfl
  | cons q rest ih =>
      simp only [List.map_cons, fmaxL_cons]
      rw [← ih (max s ↑q), WithBot.coe_add, ← max_add_add_right]

theorem fminL_top_shift (t : ℚ) (l : List ℚ) :
    fminL ⊤ (l.map (· + t)) = fminL ⊤ l + ↑t := by
  rw [← fminL_shift t l ⊤, WithTop.top_add]

theorem fmaxL_bot_shift (t : ℚ) (l : List ℚ) :
    fmaxL ⊥ (l.map (· + t)) = fmaxL ⊥ l + ↑t := by
  rw [← fmaxL_shift t l ⊥, WithBot.bot_add]

/-! ### Effect of the offset application on world corners -/

theorem worldPoint_offset (o : MeshObject) (off : Vec3) (c : Vec3) :
    worldPoint { o with location := o.location + off } c = worldPoint o c + off := by
  simp only [worldPoint, Vec3.add_def, Vec3.mk.injEq]
  refine ⟨by ring, by ring, by ring⟩

theorem allCorners_applyOffset (objs : List MeshObject) (off : Vec3) :
    allCorners (applyOffset objs off) = (allCorners objs).map (· + off) := by
  induction objs with
  | nil => rfl
  | cons o rest ih =>
      simp only [applyOffset, List.map_cons, allCorners, List.flatMap_cons,
        List.map_append] at ih ⊢
      rw [← ih]
      simp only [objCorners, List.map_map, applyOffset]
      congr 1
      exact List.map_congr_left (fun c _ => worldPoint_offset o off c)

theorem map_x_offset (l : List Vec3) (off : Vec3) :
    (l.map (· + off)).map Vec3.x = (l.map Vec3.x).map (· + off.x) := by
  simp only [List.map_map]
  rfl

theorem map_y_offset (l : List Vec3) (off : Vec3) :
    (l.map (· + off)).map Vec3.y = (l.map Vec3.y).map (· + off.y) := by
  simp only [List.map_map]
  rfl

theorem map_z_offset (l : List Vec3) (off : Vec3) :
    (l.map (· + off)).map Vec3.z = (l.map Vec3.z).map (· + off.z) := by
  simp only [List.map_map]
  rfl

theorem allCorners_ne_nil (objs : List MeshObject)
    (h1 : objs ≠ []) (h8 : ∀ o ∈ objs, o.boundBox.length = 8) :
    allCorners objs ≠ [] := by
  rcases objs with _ | ⟨o, rest⟩
  · exact absurd rfl h1
  · have hlen : o.boundBox.length = 8 := h8 o (List.mem_cons_self o rest)
    simp only [allCorners, List.flatMap_cons]
    intro heq
    rcases List.append_eq_nil.mp heq with ⟨hnil, _⟩
    have : o.boundBox.length = 0 := by
      simp [objCorners] at hnil
      simp [hnil]
    omega

/-- The union bounds as six scalar folds over the flattened corner list. -/
theorem computeUnionBounds_components (objs : List MeshObject) :
    computeUnionBounds objs
      = ⟨fminL ⊤ ((allCorners objs).map Vec3.x), fminL ⊤ ((allCorners objs).map Vec3.y),
         fminL ⊤ ((allCorners objs).map Vec3.z), fmaxL ⊥ ((allCorners objs).map Vec3.x),
         fmaxL ⊥ ((allCorners objs).map Vec3.y), fmaxL ⊥ ((allCorners objs).map Vec3.z)⟩ := by
  rw [computeUnionBounds_eq_foldl, foldl_updateCorner_components]
  rfl

/-- C1: for every non-empty sequence of mesh objects (8 corners each),
`computeUnionBounds` returns the componentwise min/max over all
world-transformed corners: every transformed corner lies within the returned
bounds, and each of the six face bounds is attained by some corner. -/
theorem computeUnionBounds_spec (objs : List MeshObject)
    (h1 : objs ≠ []) (h8 : ∀ o ∈ objs, o.boundBox.length = 8) :
    (∀ c ∈ allCorners objs,
        (computeUnionBounds objs).min_x ≤ (c.x : WithTop ℚ)
        ∧ (computeUnionBounds objs).min_y ≤ (c.y : WithTop ℚ)
        ∧ (computeUnionBounds objs).min_z ≤ (c.z : WithTop ℚ)
        ∧ (c.x : WithBot ℚ) ≤ (computeUnionBounds objs).max_x
        ∧ (c.y : WithBot ℚ) ≤ (computeUnionBounds objs).max_y
        ∧ (c.z : WithBot ℚ) ≤ (computeUnionBounds objs).max_z)
    ∧ (∃ c ∈ allCorners objs, (c.x : WithTop ℚ) = (computeUnionBounds objs).min_x)
    ∧ (∃ c ∈ allCorners objs, (c.y : WithTop ℚ) = (computeUnionBounds objs).min_y)
    ∧ (∃ c ∈ allCorners objs, (c.z : WithTop ℚ) = (computeUnionBounds objs).min_z)
    ∧ (∃ c ∈ allCorners objs, (c.x : WithBot ℚ) = (computeUnionBounds objs).max_x)
    ∧ (∃ c ∈ allCorners objs, (c.y : WithBot ℚ) = (computeUnionBounds objs).max_y)
    ∧ (∃ c ∈ allCorners objs, (c.z : WithBot ℚ) = (computeUnionBounds objs).max_z) := by
  rw [computeUnionBounds_components]
  have hne := allCorners_ne_nil objs h1 h8
  have hnex : (allCorners objs).map Vec3.x ≠ [] := fun heq => hne (List.map_eq_nil_iff.mp heq)
  have hney : (allCorners objs).map Vec3.y ≠ [] := fun heq => hne (List.map_eq_nil_iff.mp heq)
  have hnez : (allCorners objs).map Vec3.z ≠ [] := fun heq => hne (List.map_eq_nil_iff.mp heq)
  refine ⟨?_, ?_, ?_, ?_, ?_, ?_, ?_⟩
  · intro c hc
    exact ⟨fminL_le_mem _ _ _ (List.mem_map_of_mem Vec3.x hc),
           fminL_le_mem _ _ _ (List.mem_map_of_mem Vec3.y hc),
           fminL_le_mem _ _ _ (List.mem_map_of_mem Vec3.z hc),
           fmaxL_ge_mem _ _ _ (List.mem_map_of_mem Vec3.x hc),
           fmaxL_ge_mem _ _ _ (List.mem_map_of_mem Vec3.y hc),
           fmaxL_ge_mem _ _ _ (List.mem_map_of_mem Vec3.z hc)⟩
  · obtain ⟨q, hqm, hq⟩ := fminL_top_attained _ hnex
    obtain ⟨c, hc, rfl⟩ := List.mem_map.mp hqm
    exact ⟨c, hc, hq.symm⟩
  · obtain ⟨q, hqm, hq⟩ := fminL_top_attained _ hney
    obtain ⟨c, hc, rfl⟩ := List.mem_map.mp hqm
    exact ⟨c, hc, hq.symm⟩
  · obtain ⟨q, hqm, hq⟩ := fminL_top_attained _ hnez
    obtain ⟨c, hc, rfl⟩ := List.mem_map.mp hqm
    exact ⟨c, hc, hq.symm⟩
  · obtain ⟨q, hqm, hq⟩ := fmaxL_bot_attained _ hnex
    obtain ⟨c, hc, rfl⟩ := List.mem_map.mp hqm
    exact ⟨c, hc, hq.symm⟩
  · obtain ⟨q, hqm, hq⟩ := fmaxL_bot_attained _ hney
    obtain ⟨c, hc, rfl⟩ := List.mem_map.mp hqm
    exact ⟨c, hc, hq.symm⟩
  · obtain ⟨q, hqm, hq⟩ := fmaxL_bot_attained _ hnez
    obtain ⟨c, hc, rfl⟩ := List.mem_map.mp hqm
    exact ⟨c, hc, hq.symm⟩

/-! ### Concrete fixtures used by witnesses and counterexamples -/

/-- The 8 corners of the axis-aligned box `[lo, hi]`, in Blender's
`bound_box` ordering. -/
def boxCorners (lo hi : Vec3) : List Vec3 :=
  [⟨lo.x, lo.y, lo.z⟩, ⟨lo.x, lo.y, hi.z⟩, ⟨lo.x, hi.y, hi.z⟩, ⟨lo.x, hi.y, lo.z⟩,
   ⟨hi.x, lo.y, lo.z⟩, ⟨hi.x, lo.y, hi.z⟩, ⟨hi.x, hi.y, hi.z⟩, ⟨hi.x, hi.y, lo.z⟩]

/-- A unit cube `[0,1]³` sitting at the world origin. -/
def cubeObj : MeshObject :=
  ⟨"cube", boxCorners ⟨0, 0, 0⟩ ⟨1, 1, 1⟩, Mat3.id, ⟨0, 0, 0⟩⟩

/-- A box `[0,3]×[0,1]×[0,1]` sitting at the world origin. -/
def wideObj : MeshObject :=
  ⟨"wide", boxCorners ⟨0, 0, 0⟩ ⟨3, 1, 1⟩, Mat3.id, ⟨0, 0, 0⟩⟩

/-- A unit cube spanning `±1/2` around its local origin, placed at
world location `(10, 5, 2)` with identity rotation/scale. -/
def treeObj : MeshObject :=
  ⟨"tree", boxCorners ⟨-(1/2), -(1/2), -(1/2)⟩ ⟨1/2, 1/2, 1/2⟩, Mat3.id, ⟨10, 5, 2⟩⟩

/-- Witness for C1 at the concrete one-object scene `[cubeObj]`. -/
theorem computeUnionBounds_spec_witness :
    (([cubeObj] : List MeshObject) ≠ [] ∧ ∀ o ∈ [cubeObj], o.boundBox.length = 8)
    ∧ ((∀ c ∈ allCorners [cubeObj],
          (computeUnionBounds [cubeObj]).min_x ≤ (c.x : WithTop ℚ)
          ∧ (computeUnionBounds [cubeObj]).min_y ≤ (c.y : WithTop ℚ)
          ∧ (computeUnionBounds [cubeObj]).min_z ≤ (c.z : WithTop ℚ)
          ∧ (c.x : WithBot ℚ) ≤ (computeUnionBounds [cubeObj]).max_x
          ∧ (c.y : WithBot ℚ) ≤ (computeUnionBounds [cubeObj]).max_y
          ∧ (c.z : WithBot ℚ) ≤ (computeUnionBounds [cubeObj]).max_z)
      ∧ (∃ c ∈ allCorners [cubeObj], (c.x : WithTop ℚ) = (computeUnionBounds [cubeObj]).min_x)
      ∧ (∃ c ∈ allCorners [cubeObj], (c.y : WithTop ℚ) = (computeUnionBounds [cubeObj]).min_y)
      ∧ (∃ c ∈ allCorners [cubeObj], (c.z : WithTop ℚ) = (computeUnionBounds [cubeObj]).min_z)
      ∧ (∃ c ∈ allCorners [cubeObj], (c.x : WithBot ℚ) = (computeUnionBounds [cubeObj]).max_x)
      ∧ (∃ c ∈ allCorners [cubeObj], (c.y : WithBot ℚ) = (computeUnionBounds [cubeObj]).max_y)
      ∧ (∃ c ∈ allCorners [cubeObj], (c.z : WithBot ℚ) = (computeUnionBounds [cubeObj]).max_z)) :=
  ⟨⟨by simp, by simp [cubeObj, boxCorners]⟩,
   computeUnionBounds_spec [cubeObj] (by simp) (by simp [cubeObj, boxCorners])⟩

/-- C9: the union bounding box is invariant under permutation of the object
sequence — the result does not depend on visiting order. -/
theorem computeUnionBounds_perm (objs objs' : List MeshObject) (h : objs.Perm objs') :
    computeUnionBounds objs = computeUnionBounds objs' := by
  have hcorners : (allCorners objs).Perm (allCorners objs') := h.flatMap_right objCorners
  rw [computeUnionBounds_components, computeUnionBounds_components]
  congr 1
  · exact fminL_perm _ _ _ (hcorners.map Vec3.x)
  · exact fminL_perm _ _ _ (hcorners.map Vec3.y)
  · exact fminL_perm _ _ _ (hcorners.map Vec3.z)
  · exact fmaxL_perm _ _ _ (hcorners.map Vec3.x)
  · exact fmaxL_perm _ _ _ (hcorners.map Vec3.y)
  · exact fmaxL_perm _ _ _ (hcorners.map Vec3.z)

/-- Witness for C9: swapping two concrete objects leaves the union box
unchanged. -/
theorem computeUnionBounds_perm_witness :
    ([cubeObj, wideObj] : List MeshObject).Perm [wideObj, cubeObj]
    ∧ computeUnionBounds [cubeObj, wideObj] = computeUnionBounds [wideObj, cubeObj] :=
  ⟨List.Perm.swap wideObj cubeObj [],
   computeUnionBounds_perm _ _ (List.Perm.swap wideObj cubeObj [])⟩

/-- C2: the recenter offset negates the midpoints of the X and Y extents and
the minimum Z; consequently the box's bottom face lands exactly at `z = 0`
(it is not centered in Z). -/
theorem computeRecenterOffset_spec (b : BoundingBox) :
    computeRecenterOffset b
      = ⟨-((b.min.x + b.max.x) / 2), -((b.min.y + b.max.y) / 2), -b.min.z⟩
    ∧ b.min.z + (computeRecenterOffset b).z = 0 := by
  refine ⟨rfl, ?_⟩
  show b.min.z + -b.min.z = 0
  ring

/-- C10: the recenter offset does not depend on the box's maximum Z — two
boxes agreeing everywhere except `max.z` get the same offset. -/
theorem computeRecenterOffset_ignores_maxZ (b₁ b₂ : BoundingBox)
    (hminx : b₁.min.x = b₂.min.x) (hmaxx : b₁.max.x = b₂.max.x)
    (hminy : b₁.min.y = b₂.min.y) (hmaxy : b₁.max.y = b₂.max.y)
    (hminz : b₁.min.z = b₂.min.z) (hne : b₁.max.z ≠ b₂.max.z) :
    computeRecenterOffset b₁ = computeRecenterOffset b₂ := by
  simp only [computeRecenterOffset, hminx, hmaxx, hminy, hmaxy, hminz]

/-- Witness for C10 at two concrete boxes differing only in `max.z`. -/
theorem computeRecenterOffset_ignores_maxZ_witness :
    ((0 : ℚ) = 0 ∧ (1 : ℚ) = 1 ∧ (0 : ℚ) = 0 ∧ (1 : ℚ) = 1 ∧ (0 : ℚ) = 0 ∧ (1 : ℚ) ≠ 2)
    ∧ computeRecenterOffset ⟨⟨0, 0, 0⟩, ⟨1, 1, 1⟩⟩
        = computeRecenterOffset ⟨⟨0, 0, 0⟩, ⟨1, 1, 2⟩⟩ :=
  ⟨⟨rfl, rfl, rfl, rfl, rfl, by norm_num⟩,
   computeRecenterOffset_ignores_maxZ ⟨⟨0, 0, 0⟩, ⟨1, 1, 1⟩⟩ ⟨⟨0, 0, 0⟩, ⟨1, 1, 2⟩⟩
     rfl rfl rfl rfl rfl (by norm_num)⟩

/-- C5: `applyOffset` adds the offset to each object's translation component
and changes nothing else — local corners, the linear (rotation·scale) block
and the name are untouched, object by object. -/
theorem applyOffset_frame (objs : List MeshObject) (off : Vec3) :
    List.Forall₂
      (fun o o' : MeshObject =>
        o'.location = o.location + off ∧ o'.boundBox = o.boundBox
        ∧ o'.linear = o.linear ∧ o'.name = o.name)
      objs (applyOffset objs off) := by
  rw [applyOffset, List.forall₂_map_right_iff]
  exact List.forall₂_same.mpr (fun o _ => ⟨rfl, rfl, rfl, rfl⟩)

/-- C7: applying the same precomputed offset twice displaces every object's
translation by exactly twice the offset (the operation is not idempotent);
nothing else changes. -/
theorem applyOffset_twice (objs : List MeshObject) (off : Vec3) :
    List.Forall₂
      (fun o o' : MeshObject =>
        o'.location = o.location + (off + off) ∧ o'.boundBox = o.boundBox
        ∧ o'.linear = o.linear ∧ o'.name = o.name)
      objs (applyOffset (applyOffset objs off) off) := by
  rw [applyOffset, applyOffset, List.map_map, List.forall₂_map_right_iff]
  refine List.forall₂_same.mpr (fun o _ => ⟨?_, rfl, rfl, rfl⟩)
  show o.location + off + off = o.location + (off + off)
  simp only [Vec3.add_def, Vec3.mk.injEq]
  refine ⟨by ring, by ring, by ring⟩

/-! ### Concrete evaluation lemmas for the scalar folds -/

theorem fminL_nil (s : WithTop ℚ) : fminL s [] = s := rfl

theorem fmaxL_nil (s : WithBot ℚ) : fmaxL s [] = s := rfl

theorem fminL_top_cons (q : ℚ) (l : List ℚ) : fminL ⊤ (q :: l) = fminL ↑q l := by
  have h : min ⊤ ((q : ℚ) : WithTop ℚ) = ↑q := min_eq_right le_top
  rw [fminL_cons, h]

theorem fmaxL_bot_cons (q : ℚ) (l : List ℚ) : fmaxL ⊥ (q :: l) = fmaxL ↑q l := by
  have h : max ⊥ ((q : ℚ) : WithBot ℚ) = ↑q := max_eq_right bot_le
  rw [fmaxL_cons, h]

theorem fminL_coe_cons (p q : ℚ) (l : List ℚ) :
    fminL ↑p (q :: l) = fminL ↑(min p q) l := by
  rw [fminL_cons, WithTop.coe_min]

theorem fmaxL_coe_cons (p q : ℚ) (l : List ℚ) :
    fmaxL ↑p (q :: l) = fmaxL ↑(max p q) l := by
  rw [fmaxL_cons, WithBot.coe_max]

/-- C6: the single-object scenario — a unit cube spanning `±1/2` locally,
world transform the identity translated to `(10, 5, 2)`.  The union box is
`min (9.5, 4.5, 1.5)`, `max (10.5, 5.5, 2.5)`; the offset is `(−10, −5, −1.5)`;
after applying it the re-evaluated box is `min (−0.5, −0.5, 0)`,
`max (0.5, 0.5, 1)`. -/
theorem treeScenario_spec :
    computeUnionBounds [treeObj]
      = ⟨((19/2 : ℚ) : WithTop ℚ), ((9/2 : ℚ) : WithTop ℚ), ((3/2 : ℚ) : WithTop ℚ),
         ((21/2 : ℚ) : WithBot ℚ), ((11/2 : ℚ) : WithBot ℚ), ((5/2 : ℚ) : WithBot ℚ)⟩
    ∧ computeRecenterOffset ⟨⟨19/2, 9/2, 3/2⟩, ⟨21/2, 11/2, 5/2⟩⟩ = ⟨-10, -5, -(3/2)⟩
    ∧ computeUnionBounds
        (applyOffset [treeObj] (computeRecenterOffset ⟨⟨19/2, 9/2, 3/2⟩, ⟨21/2, 11/2, 5/2⟩⟩))
      = ⟨((-(1/2) : ℚ) : WithTop ℚ), ((-(1/2) : ℚ) : WithTop ℚ), ((0 : ℚ) : WithTop ℚ),
         ((1/2 : ℚ) : WithBot ℚ), ((1/2 : ℚ) : WithBot ℚ), ((1 : ℚ) : WithBot ℚ)⟩ := by
  have hoff : computeRecenterOffset ⟨⟨19/2, 9/2, 3/2⟩, ⟨21/2, 11/2, 5/2⟩⟩
      = (⟨-10, -5, -(3/2)⟩ : Vec3) := by
    simp only [computeRecenterOffset, Vec3.mk.injEq]
    norm_num
  refine ⟨?_, hoff, ?_⟩
  · rw [computeUnionBounds_components]
    simp only [treeObj, boxCorners, allCorners, objCorners, worldPoint, Mat3.apply, Mat3.id,
      Vec3.add_def, List.flatMap_cons, List.flatMap_nil, List.append_nil, List.map_cons,
      List.map_nil, UnionBounds.mk.injEq]
    norm_num
    simp only [fminL_top_cons, fminL_coe_cons, fminL_nil, fmaxL_bot_cons, fmaxL_coe_cons,
      fmaxL_nil]
    norm_num [min_def, max_def]
  · rw [hoff, computeUnionBounds_components]
    simp only [treeObj, boxCorners, applyOffset, allCorners, objCorners, worldPoint, Mat3.apply,
      Mat3.id, Vec3.add_def, List.flatMap_cons, List.flatMap_nil, List.append_nil, List.map_cons,
      List.map_nil, UnionBounds.mk.injEq]
    norm_num
    simp only [fminL_top_cons, fminL_coe_cons, fminL_nil, fmaxL_bot_cons, fmaxL_coe_cons,
      fmaxL_nil]
    norm_num [min_def, max_def]

/-- Counterexample to C4: on the empty sequence the union-bounds loop does
not fail with any error — it returns the degenerate box whose minima are all
`+∞` and whose maxima are all `−∞` (minimum corner above maximum corner). -/
theorem computeUnionBounds_empty_counterexample :
    computeUnionBounds [] = ⟨⊤, ⊤, ⊤, ⊥, ⊥, ⊥⟩ := rfl

/-- C4 (amended): on the empty object sequence `computeUnionBounds` returns
the degenerate `±∞` box instead of failing with `EmptyInputError`; vacuously,
no object is mutated (the apply-offset loop over the empty sequence produces
nothing — the script only aborts later, at the transform-baking step). -/
theorem computeUnionBounds_empty_amended (off : Vec3) :
    computeUnionBounds [] = initBounds ∧ applyOffset [] off = [] := ⟨rfl, rfl⟩

/-- C3 (amended): when the union bounds of the scene form the finite box `b`,
applying the recenter offset computed from `b` and re-evaluating yields a
minimum Z of exactly zero (both in the verification pass and in the recomputed
union bounds) and re-evaluated X and Y extents whose midpoints are exactly
zero.  (The original claim's corner-mean X/Y need not be near zero: the mean
of all corners is not the extent midpoint — see the counterexample.) -/
theorem recenter_bounds_amended (objs : List MeshObject) (b : BoundingBox)
    (hmx : (computeUnionBounds objs).min_x = ((b.min.x : ℚ) : WithTop ℚ))
    (hmy : (computeUnionBounds objs).min_y = ((b.min.y : ℚ) : WithTop ℚ))
    (hmz : (computeUnionBounds objs).min_z = ((b.min.z : ℚ) : WithTop ℚ))
    (hMx : (computeUnionBounds objs).max_x = ((b.max.x : ℚ) : WithBot ℚ))
    (hMy : (computeUnionBounds objs).max_y = ((b.max.y : ℚ) : WithBot ℚ))
    (hMz : (computeUnionBounds objs).max_z = ((b.max.z : ℚ) : WithBot ℚ)) :
    (verifyRecenter (applyOffset objs (computeRecenterOffset b))).minZ = ((0 : ℚ) : WithTop ℚ)
    ∧ (computeUnionBounds (applyOffset objs (computeRecenterOffset b))).min_z
        = ((0 : ℚ) : WithTop ℚ)
    ∧ ∃ mx Mx my My : ℚ,
        (computeUnionBounds (applyOffset objs (computeRecenterOffset b))).min_x = ↑mx
        ∧ (computeUnionBounds (applyOffset objs (computeRecenterOffset b))).max_x = ↑Mx
        ∧ mx + Mx = 0
        ∧ (computeUnionBounds (applyOffset objs (computeRecenterOffset b))).min_y = ↑my
        ∧ (computeUnionBounds (applyOffset objs (computeRecenterOffset b))).max_y = ↑My
        ∧ my + My = 0 := by
  have hoffx : (computeRecenterOffset b).x = -((b.min.x + b.max.x) / 2) := rfl
  have hoffy : (computeRecenterOffset b).y = -((b.min.y + b.max.y) / 2) := rfl
  have hoffz : (computeRecenterOffset b).z = -b.min.z := rfl
  rw [computeUnionBounds_components] at hmx hmy hmz hMx hMy hMz
  dsimp only at hmx hmy hmz hMx hMy hMz
  have hminz : (computeUnionBounds (applyOffset objs (computeRecenterOffset b))).min_z
      = ((0 : ℚ) : WithTop ℚ) := by
    rw [computeUnionBounds_components]
    dsimp only
    rw [allCorners_applyOffset, map_z_offset, fminL_top_shift, hmz, hoffz, ← WithTop.coe_add]
    norm_num
  refine ⟨?_, hminz, ?_⟩
  · show fminL ⊤ ((allCorners (applyOffset objs (computeRecenterOffset b))).map Vec3.z)
        = ((0 : ℚ) : WithTop ℚ)
    rw [allCorners_applyOffset, map_z_offset, fminL_top_shift, hmz, hoffz, ← WithTop.coe_add]
    norm_num
  · refine ⟨b.min.x + (computeRecenterOffset b).x, b.max.x + (computeRecenterOffset b).x,
            b.min.y + (computeRecenterOffset b).y, b.max.y + (computeRecenterOffset b).y,
            ?_, ?_, ?_, ?_, ?_, ?_⟩
    · rw [computeUnionBounds_components]
      dsimp only
      rw [allCorners_applyOffset, map_x_offset, fminL_top_shift, hmx, ← WithTop.coe_add]
    · rw [computeUnionBounds_components]
      dsimp only
      rw [allCorners_applyOffset, map_x_offset, fmaxL_bot_shift, hMx, ← WithBot.coe_add]
    · rw [hoffx]; ring
    · rw [computeUnionBounds_components]
      dsimp only
      rw [allCorners_applyOffset, map_y_offset, fminL_top_shift, hmy, ← WithTop.coe_add]
    · rw [computeUnionBounds_components]
      dsimp only
      rw [allCorners_applyOffset, map_y_offset, fmaxL_bot_shift, hMy, ← WithBot.coe_add]
    · rw [hoffy]; ring

/-- Concrete evaluation of the union bounds of the single unit cube at the
origin, used to discharge the hypotheses of the recentering theorem. -/
theorem cubeBounds_eval :
    computeUnionBounds [cubeObj]
      = ⟨((0 : ℚ) : WithTop ℚ), ((0 : ℚ) : WithTop ℚ), ((0 : ℚ) : WithTop ℚ),
         ((1 : ℚ) : WithBot ℚ), ((1 : ℚ) : WithBot ℚ), ((1 : ℚ) : WithBot ℚ)⟩ := by
  rw [computeUnionBounds_components]
  simp only [cubeObj, boxCorners, allCorners, objCorners, worldPoint, Mat3.apply, Mat3.id,
    Vec3.add_def, List.flatMap_cons, List.flatMap_nil, List.append_nil, List.map_cons,
    List.map_nil, UnionBounds.mk.injEq]
  norm_num
  simp only [fminL_top_cons, fminL_coe_cons, fminL_nil, fmaxL_bot_cons, fmaxL_coe_cons, fmaxL_nil]
  norm_num [min_def, max_def]

/-- Witness for the amended C3 at the concrete one-object scene `[cubeObj]`. -/
theorem recenter_bounds_amended_witness :
    ((computeUnionBounds [cubeObj]).min_x = ((0 : ℚ) : WithTop ℚ)
     ∧ (computeUnionBounds [cubeObj]).min_y = ((0 : ℚ) : WithTop ℚ)
     ∧ (computeUnionBounds [cubeObj]).min_z = ((0 : ℚ) : WithTop ℚ)
     ∧ (computeUnionBounds [cubeObj]).max_x = ((1 : ℚ) : WithBot ℚ)
     ∧ (computeUnionBounds [cubeObj]).max_y = ((1 : ℚ) : WithBot ℚ)
     ∧ (computeUnionBounds [cubeObj]).max_z = ((1 : ℚ) : WithBot ℚ))
    ∧ ((verifyRecenter (applyOffset [cubeObj]
          (computeRecenterOffset ⟨⟨0, 0, 0⟩, ⟨1, 1, 1⟩⟩))).minZ = ((0 : ℚ) : WithTop ℚ)
       ∧ (computeUnionBounds (applyOffset [cubeObj]
            (computeRecenterOffset ⟨⟨0, 0, 0⟩, ⟨1, 1, 1⟩⟩))).min_z = ((0 : ℚ) : WithTop ℚ)
       ∧ ∃ mx Mx my My : ℚ,
           (computeUnionBounds (applyOffset [cubeObj]
              (computeRecenterOffset ⟨⟨0, 0, 0⟩, ⟨1, 1, 1⟩⟩))).min_x = ↑mx
           ∧ (computeUnionBounds (applyOffset [cubeObj]
                (computeRecenterOffset ⟨⟨0, 0, 0⟩, ⟨1, 1, 1⟩⟩))).max_x = ↑Mx
           ∧ mx + Mx = 0
           ∧ (computeUnionBounds (applyOffset [cubeObj]
                (computeRecenterOffset ⟨⟨0, 0, 0⟩, ⟨1, 1, 1⟩⟩))).min_y = ↑my
           ∧ (computeUnionBounds (applyOffset [cubeObj]
                (computeRecenterOffset ⟨⟨0, 0, 0⟩, ⟨1, 1, 1⟩⟩))).max_y = ↑My
           ∧ my + My = 0) := by
  have h1 : (computeUnionBounds [cubeObj]).min_x = ((0 : ℚ) : WithTop ℚ) := by rw [cubeBounds_eval]
  have h2 : (computeUnionBounds [cubeObj]).min_y = ((0 : ℚ) : WithTop ℚ) := by rw [cubeBounds_eval]
  have h3 : (computeUnionBounds [cubeObj]).min_z = ((0 : ℚ) : WithTop ℚ) := by rw [cubeBounds_eval]
  have h4 : (computeUnionBounds [cubeObj]).max_x = ((1 : ℚ) : WithBot ℚ) := by rw [cubeBounds_eval]
  have h5 : (computeUnionBounds [cubeObj]).max_y = ((1 : ℚ) : WithBot ℚ) := by rw [cubeBounds_eval]
  have h6 : (computeUnionBounds [cubeObj]).max_z = ((1 : ℚ) : WithBot ℚ) := by rw [cubeBounds_eval]
  exact ⟨⟨h1, h2, h3, h4, h5, h6⟩,
    recenter_bounds_amended [cubeObj] ⟨⟨0, 0, 0⟩, ⟨1, 1, 1⟩⟩ h1 h2 h3 h4 h5 h6⟩

/-- Counterexample to C3 as stated: two objects of different widths.  The
union box is `[0,3]×[0,1]×[0,1]`, the offset `(−3/2, −1/2, 0)`; after applying
it the mean X over all 16 corners is `−1/2`, which is not within `1e-4` of
zero (the corner mean weights each object equally and is not the extent
midpoint). -/
theorem recenter_centroid_counterexample :
    computeUnionBounds [cubeObj, wideObj]
      = ⟨((0 : ℚ) : WithTop ℚ), ((0 : ℚ) : WithTop ℚ), ((0 : ℚ) : WithTop ℚ),
         ((3 : ℚ) : WithBot ℚ), ((1 : ℚ) : WithBot ℚ), ((1 : ℚ) : WithBot ℚ)⟩
    ∧ (verifyRecenter (applyOffset [cubeObj, wideObj]
         (computeRecenterOffset ⟨⟨0, 0, 0⟩, ⟨3, 1, 1⟩⟩))).centroidX = -(1/2)
    ∧ ¬ |(verifyRecenter (applyOffset [cubeObj, wideObj]
           (computeRecenterOffset ⟨⟨0, 0, 0⟩, ⟨3, 1, 1⟩⟩))).centroidX| ≤ 1/10000 := by
  have hbounds : computeUnionBounds [cubeObj, wideObj]
      = ⟨((0 : ℚ) : WithTop ℚ), ((0 : ℚ) : WithTop ℚ), ((0 : ℚ) : WithTop ℚ),
         ((3 : ℚ) : WithBot ℚ), ((1 : ℚ) : WithBot ℚ), ((1 : ℚ) : WithBot ℚ)⟩ := by
    rw [computeUnionBounds_components]
    simp only [cubeObj, wideObj, boxCorners, allCorners, objCorners, worldPoint, Mat3.apply,
      Mat3.id, Vec3.add_def, List.flatMap_cons, List.flatMap_nil, List.append_nil, List.map_cons,
      List.map_nil, List.map_append, List.flatMap_append, UnionBounds.mk.injEq]
    norm_num
    simp only [fminL_top_cons, fminL_coe_cons, fminL_nil, fmaxL_bot_cons, fmaxL_coe_cons,
      fmaxL_nil]
    norm_num [min_def, max_def]
  have hcx : (verifyRecenter (applyOffset [cubeObj, wideObj]
      (computeRecenterOffset ⟨⟨0, 0, 0⟩, ⟨3, 1, 1⟩⟩))).centroidX = -(1/2) := by
    simp only [verifyRecenter, cubeObj, wideObj, boxCorners, applyOffset, allCorners, objCorners,
      worldPoint, Mat3.apply, Mat3.id, computeRecenterOffset, Vec3.add_def, List.flatMap_cons,
      List.flatMap_nil, List.append_nil, List.map_cons, List.map_nil, List.map_append,
      List.sum_cons, List.sum_nil, List.length_cons, List.length_nil]
    norm_num
  refine ⟨hbounds, hcx, ?_⟩
  rw [hcx, abs_neg, abs_of_nonneg (by norm_num : (0 : ℚ) ≤ 1/2)]
  norm_num

/-- Counterexample to C8: with `missing.png` absent at the source, the copy
loop copies the present file and prints only that file's `Copied:` line; it
prints strictly fewer lines than it was given files — the missing file is
skipped silently, with no reported notice. -/
theorem copyTextures_counterexample :
    copyTextures (fun f => f == "a.png") ["a.png", "missing.png"]
      = (["a.png"], ["Copied: a.png"])
    ∧ (copyTextures (fun f => f == "a.png") ["a.png", "missing.png"]).2.length
        < ["a.png", "missing.png"].length := by
  exact ⟨rfl, by decide⟩

/-- C8 (amended): for every file list and source state, the copy loop copies
exactly the files present at the source (in order) and prints a `Copied:`
line for each copied file only; missing files are skipped silently without
any notice, the loop never raises, and the run continues. -/
theorem copyTextures_amended (present : String → Bool) (files : List String) :
    (copyTextures present files).1 = files.filter present
    ∧ (copyTextures present files).2
        = (files.filter present).map (fun f => "Copied: " ++ f) := by
  induction files with
  | nil => exact ⟨rfl, rfl⟩
  | cons f fs ih =>
      by_cases h : present f
      · simp [copyTextures, List.filter_cons, h, ih.1, ih.2]
      · simp [copyTextures, List.filter_cons, h, ih.1, ih.2]
